import Mathlib

/-!
Verification of the EastMoney quote adapter
(beanprice/sources/eastmoneyquota.py) against its design specification.

The development shallowly embeds the Python module:

* tickers and provider strings are `List Char` / `String`;
* aware datetimes are an absolute instant in integer seconds since the Unix
  epoch together with the attached utcoffset in hours (Python aware-datetime
  arithmetic subtracts instants, i.e. normalizes offsets, and the offset is
  carried only for display — `AwareDateTime` mirrors exactly that);
* `decimal.Decimal` values are exact rationals (`Rat`);
* fallible Python functions return `Except`; the distinct exception classes
  that can cross `get_price_series`'s `try` block are the constructors of
  `PyExc`, and the `except` clause dispatch is the total function
  `runExceptClauses` (note `EastMoneyQuotaError` subclasses `ValueError`,
  and `decimal.InvalidOperation` subclasses `ArithmeticError`, *not*
  `ValueError` — both facts are visible in `runExceptClauses`);
* the single outbound HTTP call is an oracle `fetch : FetchRequest →
  FetchOutcome` receiving the request essentials (secid, lmt, window); the
  `beg`/`end` query strings are determined by the window and are not
  re-rendered here.

Unmodelled corners, none of which any claim touches: a JSON body that is
valid JSON but not an object (the Python would hit `AttributeError` on
`.get`), non-ASCII prefixes under `.upper()`, sub-second precision of the
target time, and the exotic parts of the `Decimal` string grammar
(exponents, specials, whitespace/underscore trimming) — `parse_decimal`
covers the plain numerals the provider emits.
-/

/-! ### Python string helpers -/

/-- Python `str.isdigit`: non-empty and all digits. -/
def isdigit (s : List Char) : Bool := !s.isEmpty && s.all Char.isDigit

/-- Python `str.startswith(c)` for a one-character pattern. -/
def startswith (s : List Char) (c : Char) : Bool :=
  match s with
  | [] => false
  | a :: _ => a == c

/-- Python `c in s` for a single character. -/
def containsChar (s : List Char) (c : Char) : Bool :=
  match s with
  | [] => false
  | a :: rest => a == c || containsChar rest c

/-- Python `s.split(sep, 1)` when the separator occurs: the part before the
first `'.'` and the part after it. -/
def splitFirstDot : List Char → List Char × List Char
  | [] => ([], [])
  | c :: rest =>
    if c == '.' then ([], rest)
    else
      let p := splitFirstDot rest
      (c :: p.1, p.2)

/-- Python `s.split(',')` (split on every comma, keeping empty groups). -/
def splitOnComma : List Char → List (List Char)
  | [] => [[]]
  | c :: rest =>
    if c == ',' then [] :: splitOnComma rest
    else
      match splitOnComma rest with
      | [] => [[c]]
      | g :: gs => (c :: g) :: gs

/-- An f-string renders a Python `None` as the text "None". -/
def pyShowOptStr : Option String → String
  | some s => s
  | none => "None"

/-! ### Data model -/

/-- A Python aware datetime: the absolute instant (seconds since the Unix
epoch) plus the tzinfo's utcoffset in hours.  Subtraction of aware datetimes
compares instants, so all time arithmetic below uses `epochSec` only; the
offset is retained because the adapter promises to tag results with the
fixed UTC+8 zone. -/
structure AwareDateTime where
  epochSec : Int
  offsetHours : Int
  deriving DecidableEq, Repr

/-- `t + datetime.timedelta(days = n)`: shifts the instant, keeps tzinfo. -/
def addDays (t : AwareDateTime) (n : Int) : AwareDateTime :=
  ⟨t.epochSec + n * 86400, t.offsetHours⟩

/-- One parsed kline entry: (aware date, exact decimal close price). -/
structure PricePoint where
  date : AwareDateTime
  price : Rat
  deriving DecidableEq, Repr

/-- beanprice's SourcePrice named tuple.  Modelled from the spec: the host's
`source` module is not part of this repository snapshot; per the spec a
price observation is (decimal price, timezone-aware time, quote currency). -/
structure SourcePrice where
  price : Rat
  time : AwareDateTime
  quote_currency : String
  deriving DecidableEq, Repr

/-- The module constant CURRENCY = "CNY". -/
def CURRENCY : String := "CNY"

/-! ### Calendar arithmetic -/

/-- Gregorian leap year. -/
def isLeap (y : Nat) : Bool := y % 4 == 0 && (y % 100 != 0 || y % 400 == 0)

/-- Length of a month, as validated by `datetime.datetime(y, m, d)`. -/
def daysInMonth (y m : Nat) : Nat :=
  if m == 2 then (if isLeap y then 29 else 28)
  else if m == 4 || m == 6 || m == 9 || m == 11 then 30
  else 31

/-- Days from 1970-01-01 to the civil date y-m-d (standard civil-from-days
algorithm; all intermediate quantities are non-negative for y ≥ 1). -/
def daysFromCivil (y m d : Nat) : Int :=
  let ys : Nat := if m ≤ 2 then y - 1 else y
  let era : Nat := ys / 400
  let yoe : Nat := ys - era * 400
  let mp : Nat := if 2 < m then m - 3 else m + 9
  let doy : Nat := (153 * mp + 2) / 5 + (d - 1)
  let doe : Nat := yoe * 365 + yoe / 4 - yoe / 100 + doy
  (↑(era * 146097 + doe) : Int) - 719468

/-- `datetime.strptime(s, "%Y-%m-%d").replace(tzinfo=TIMEZONE)`: local
midnight of the parsed date in the fixed UTC+8 offset; the corresponding
instant is midnight minus eight hours. -/
def mkTzMidnight (y m d : Nat) : AwareDateTime :=
  ⟨daysFromCivil y m d * 86400 - 8 * 3600, 8⟩

/-! ### Identifier resolution -/

/-- The module's fixed exchange table. -/
def market_mapping : List (String × String) := [("SZ", "0"), ("SH", "1"), ("HK", "116")]

/-- Python dict lookup on the fixed table. -/
def marketLookup (k : String) : Option String := List.lookup k market_mapping

/-- get_market_code.  Mirrors the Python if/elif/else chain exactly: when
the outer 6-digit branch is taken but neither inner test fires, the Python
function falls off the end of its body and returns None (the final `else`
belongs to the outer chain), which is `Except.ok none` here.  The table
accesses use keys that are present, so the `getD` defaults are unreachable. -/
def get_market_code (ticker : List Char) : Except String (Option String) :=
  if isdigit ticker && ticker.length == 6 then
    if startswith ticker '0' || startswith ticker '1' ||
        startswith ticker '2' || startswith ticker '3' then
      Except.ok (some ((marketLookup "SZ").getD ""))
    else if startswith ticker '6' then
      Except.ok (some ((marketLookup "SH").getD ""))
    else
      Except.ok none
  else if isdigit ticker && ticker.length == 5 then
    Except.ok (some ((marketLookup "HK").getD ""))
  else
    Except.error ("Unsupported ticker format: " ++ String.mk ticker)

/-- generate_secid: prefix path splits at the first '.', upper-cases the
prefix only, looks it up in the table; otherwise auto-detects via
get_market_code and formats "market_code.ticker" with an f-string (which
renders a None market code as "None"). -/
def generate_secid (ticker : List Char) : Except String String :=
  if containsChar ticker '.' then
    let pc := splitFirstDot ticker
    let pfx := String.mk (pc.1.map Char.toUpper)
    match marketLookup pfx with
    | some mc => Except.ok (mc ++ "." ++ String.mk pc.2)
    | none => Except.error ("Unsupported market prefix: " ++ pfx)
  else
    match get_market_code ticker with
    | Except.error e => Except.error e
    | Except.ok mc => Except.ok (pyShowOptStr mc ++ "." ++ String.mk ticker)

/-! ### strptime "%Y-%m-%d"

CPython's `_strptime` compiles the format to the regex
`(?P<Y>\d\d\d\d)\-(?P<m>1[0-2]|0[1-9]|[1-9])\-(?P<d>3[01]|[12]\d|0[1-9]|[1-9])`
and then requires the whole string consumed and a constructible date.
The two-digit alternatives come first; committing to them is faithful
because whenever a two-digit alternative matches, the one-digit fallback
would have to match the second digit against a literal '-' (month) or
leave unconverted trailing data (day), so backtracking cannot succeed. -/

/-- Numeric value of a digit character. -/
def dval (c : Char) : Nat := c.toNat - 48

/-- Two-digit month alternatives 1[0-2] | 0[1-9]. -/
def parseMonth2 (a b : Char) : Option Nat :=
  if a = '1' ∧ '0' ≤ b ∧ b ≤ '2' then some (10 + dval b)
  else if a = '0' ∧ '1' ≤ b ∧ b ≤ '9' then some (dval b)
  else none

/-- Month field of the strptime regex, returning the rest of the input. -/
def parseMonth : List Char → Option (Nat × List Char)
  | a :: b :: t =>
    (match parseMonth2 a b with
     | some m => some (m, t)
     | none => if '1' ≤ a ∧ a ≤ '9' then some (dval a, b :: t) else none)
  | [a] => if '1' ≤ a ∧ a ≤ '9' then some (dval a, ([] : List Char)) else none
  | [] => none

/-- Two-digit day alternatives 3[01] | [12]\d | 0[1-9]. -/
def parseDay2 (a b : Char) : Option Nat :=
  if a = '3' ∧ ('0' ≤ b ∧ b ≤ '1') then some (30 + dval b)
  else if (a = '1' ∨ a = '2') ∧ ('0' ≤ b ∧ b ≤ '9') then some (dval a * 10 + dval b)
  else if a = '0' ∧ ('1' ≤ b ∧ b ≤ '9') then some (dval b)
  else none

/-- Day field of the strptime regex, returning the rest of the input. -/
def parseDay : List Char → Option (Nat × List Char)
  | a :: b :: t =>
    (match parseDay2 a b with
     | some d => some (d, t)
     | none => if '1' ≤ a ∧ a ≤ '9' then some (dval a, b :: t) else none)
  | [a] => if '1' ≤ a ∧ a ≤ '9' then some (dval a, ([] : List Char)) else none
  | [] => none

/-- Strict "%Y-%m-%d" parse: four year digits, '-', month, '-', day,
nothing left over, then the datetime constructor's validation
(MINYEAR ≤ year and day within the month). -/
def strptimeYmd (s : List Char) : Option (Nat × Nat × Nat) :=
  match s with
  | y1 :: y2 :: y3 :: y4 :: sep :: rest =>
    if y1.isDigit ∧ y2.isDigit ∧ y3.isDigit ∧ y4.isDigit ∧ sep = '-' then
      let y := 1000 * dval y1 + 100 * dval y2 + 10 * dval y3 + dval y4
      match parseMonth rest with
      | some (m, sep2 :: rest2) =>
        if sep2 = '-' then
          match parseDay rest2 with
          | some (d, []) => if 1 ≤ y ∧ d ≤ daysInMonth y m then some (y, m, d) else none
          | _ => none
        else none
      | _ => none
    else none
  | _ => none

/-! ### Decimal string parsing -/

/-- Value of a digit string, most significant first. -/
def digitsToNat (s : List Char) : Nat := s.foldl (fun acc c => acc * 10 + dval c) 0

/-- The exact rational value of the numeral "ip.fp": integer part plus
fraction digits over the matching power of ten. -/
def decimalVal (ip fp : List Char) : Rat :=
  (digitsToNat ip : Rat) + (digitsToNat fp : Rat) / (10 : Rat) ^ fp.length

/-- Unsigned part of the `Decimal` numeral grammar: digits, optionally
followed by '.' and fraction digits, at least one digit in total. -/
def parseUnsignedDecimal (s : List Char) : Option Rat :=
  let ip := s.takeWhile Char.isDigit
  match s.dropWhile Char.isDigit with
  | [] => if ip.isEmpty then none else some ((digitsToNat ip : Rat))
  | c :: fp =>
    if c = '.' ∧ fp.all Char.isDigit ∧ ¬(ip.isEmpty ∧ fp.isEmpty) then
      some (decimalVal ip fp)
    else none

/-- `decimal.Decimal(s)` on the plain numeral grammar (optional sign,
digits, optional fractional part); the value is exact, no rounding. -/
def parse_decimal (s : List Char) : Option Rat :=
  match s with
  | [] => none
  | c :: rest =>
    if c = '-' then (parseUnsignedDecimal rest).map (fun q => -q)
    else if c = '+' then parseUnsignedDecimal rest
    else parseUnsignedDecimal (c :: rest)

/-! ### Row and response parsing -/

/-- Outcome of the loop body for one kline entry.  `skip` is a raised
`ValueError`/`IndexError`, caught by the `except` clause and skipped;
`invalidOperation` is `decimal.InvalidOperation` from the `Decimal`
constructor, which subclasses `ArithmeticError` and therefore escapes the
`except (ValueError, IndexError)` clause uncaught. -/
inductive RowResult where
  | ok (p : PricePoint)
  | skip
  | invalidOperation
  deriving DecidableEq, Repr

/-- One iteration of the parsing loop: unpack `kline.split(',')` into
exactly two parts (a mismatch raises ValueError), strict date parse
(failure raises ValueError), then `Decimal` (failure raises
InvalidOperation). -/
def parse_kline_row (kline : List Char) : RowResult :=
  match splitOnComma kline with
  | [date_str, close_price] =>
    (match strptimeYmd date_str with
     | none => RowResult.skip
     | some (y, m, d) =>
       match parse_decimal close_price with
       | none => RowResult.invalidOperation
       | some q => RowResult.ok ⟨mkTzMidnight y m d, q⟩)
  | _ => RowResult.skip

/-- The exception classes that can cross `get_price_series`'s try block. -/
inductive PyExc where
  | requestException (msg : String)
  | jsonDecodeError (msg : String)
  | quotaError (msg : String)
  | invalidOperation
  deriving DecidableEq, Repr

/-- The `data['data']['klines']` access as seen by parse_kline_data:
`missing` covers a falsy body, an absent 'data' key and an absent 'klines'
key — the three disjuncts of the guard, all taking the same branch. -/
inductive KlineInput where
  | missing
  | present (klines : List (List Char))
  deriving DecidableEq, Repr

/-- The result-collecting loop of parse_kline_data: appends parsed rows in
order, skips rows that raised ValueError, aborts on InvalidOperation. -/
def collectRows : List (List Char) → Except Unit (List PricePoint)
  | [] => Except.ok []
  | k :: rest =>
    match parse_kline_row k with
    | RowResult.invalidOperation => Except.error ()
    | RowResult.skip => collectRows rest
    | RowResult.ok p => (collectRows rest).map (fun l => p :: l)

/-- The sort key of `sorted(result, key=lambda x: x[0])`: aware datetimes
compare by instant. -/
def dateLe (a b : PricePoint) : Prop := a.date.epochSec ≤ b.date.epochSec

instance : DecidableRel dateLe := fun a b =>
  inferInstanceAs (Decidable (a.date.epochSec ≤ b.date.epochSec))

instance : IsTotal PricePoint dateLe := ⟨fun a b => Int.le_total a.date.epochSec b.date.epochSec⟩

instance : IsTrans PricePoint dateLe := ⟨fun _ _ _ h1 h2 => le_trans h1 h2⟩

instance : IsRefl PricePoint dateLe := ⟨fun a => le_refl a.date.epochSec⟩

/-- parse_kline_data.  Python's `sorted` is a stable sort by the date key;
a stable sort's output is uniquely determined by the key order and the
input order, so Mathlib's (stable) insertion sort denotes it exactly. -/
def parse_kline_data (input : KlineInput) : Except PyExc (List PricePoint) :=
  match input with
  | KlineInput.missing => Except.error (PyExc.quotaError "Invalid API response format")
  | KlineInput.present klines =>
    if klines.isEmpty then Except.error (PyExc.quotaError "No price data found")
    else
      match collectRows klines with
      | Except.error _ => Except.error PyExc.invalidOperation
      | Except.ok result =>
        if result.isEmpty then Except.error (PyExc.quotaError "No valid price data found")
        else Except.ok (List.insertionSort dateLe result)

/-! ### The fetch layer -/

/-- The essentials of the outbound request: the security id, the `lmt`
day-count parameter, and the window whose endpoints also produce the
`beg`/`end` query strings. -/
structure FetchRequest where
  secid : String
  lmt : Int
  beg : AwareDateTime
  endt : AwareDateTime
  deriving DecidableEq, Repr

/-- What the network oracle can make the guarded region observe:
a transport failure (`requests.RequestException`, which also covers
`raise_for_status` on a non-2xx reply), a JSON decode failure from
`response.json()`, or a decoded JSON object with its `rc` field, `rt`
field (pre-rendered to text, as the f-string would), and kline container. -/
inductive FetchOutcome where
  | networkError (msg : String)
  | badJson (msg : String)
  | jsonOk (rc : Option Int) (rt : Option String) (kl : KlineInput)
  deriving DecidableEq, Repr

/-- What a caller of the adapter can observe: an `EastMoneyQuotaError`
carrying a message, or an escaped `decimal.InvalidOperation`. -/
inductive AppError where
  | quota (msg : String)
  | invalidOperation
  deriving DecidableEq, Repr

/-- The two `except` clauses of get_price_series, applied to an exception
raised inside the try block.  `except requests.RequestException` matches
first; `except (json.JSONDecodeError, ValueError)` also catches the
function's own `EastMoneyQuotaError` raises, because `EastMoneyQuotaError`
derives from `ValueError`; `decimal.InvalidOperation` derives from
`ArithmeticError` and matches neither clause. -/
def runExceptClauses : PyExc → AppError
  | PyExc.requestException m => AppError.quota ("Network error: " ++ m)
  | PyExc.jsonDecodeError m => AppError.quota ("Invalid JSON response: " ++ m)
  | PyExc.quotaError m => AppError.quota ("Invalid JSON response: " ++ m)
  | PyExc.invalidOperation => AppError.invalidOperation

/-- The body of get_price_series's try block, given the market code the
resolution step produced. -/
def tryBody (ticker : List Char) (time_begin time_end : AwareDateTime)
    (fetch : FetchRequest → FetchOutcome) (market_code : Option String) :
    Except PyExc (List PricePoint) :=
  let secid := pyShowOptStr market_code ++ "." ++ String.mk ticker
  let days := Int.fdiv (time_end.epochSec - time_begin.epochSec) 86400 + 1
  match fetch ⟨secid, days, time_begin, time_end⟩ with
  | FetchOutcome.networkError m => Except.error (PyExc.requestException m)
  | FetchOutcome.badJson m => Except.error (PyExc.jsonDecodeError m)
  | FetchOutcome.jsonOk rc rt kl =>
    if rc ≠ some 0 then
      Except.error (PyExc.quotaError ("API error: " ++ rt.getD "Unknown error"))
    else
      match parse_kline_data kl with
      | Except.error e => Except.error e
      | Except.ok prices =>
        if prices.isEmpty then
          Except.error (PyExc.quotaError ("No price data found for " ++ String.mk ticker))
        else Except.ok prices

/-- get_price_series: resolution via get_market_code happens before the
try block, so its error propagates untranslated; everything raised inside
the try block goes through the except clauses. -/
def get_price_series (ticker : List Char) (time_begin time_end : AwareDateTime)
    (fetch : FetchRequest → FetchOutcome) : Except AppError (List PricePoint) :=
  match get_market_code ticker with
  | Except.error e => Except.error (AppError.quota e)
  | Except.ok mc =>
    match tryBody ticker time_begin time_end fetch mc with
    | Except.ok v => Except.ok v
    | Except.error e => Except.error (runExceptClauses e)

/-! ### The three public operations -/

/-- Python's `min(xs, key=f)`: left fold keeping the current minimum and
replacing it only on a strictly smaller key, hence stable. -/
def pyMinBy {α : Type} (f : α → Nat) (x : α) (xs : List α) : α :=
  xs.foldl (fun acc y => if f y < f acc then y else acc) x

/-- `abs((point_date - time).total_seconds())` on aware datetimes: the
offsets normalize away and only the instants are compared. -/
def time_distance (p : PricePoint) (t : AwareDateTime) : Nat :=
  (p.date.epochSec - t.epochSec).natAbs

namespace Source

/-- Source.get_latest_price; `now` is the ambient datetime.datetime.now(TIMEZONE).
The empty-series re-check mirrors the Python guard (unreachable, since a
successful get_price_series never yields an empty list). -/
def get_latest_price (ticker : List Char) (fetch : FetchRequest → FetchOutcome)
    (now : AwareDateTime) : Except AppError SourcePrice :=
  let end_time := now
  let begin_time := addDays now (-10)
  match get_price_series ticker begin_time end_time fetch with
  | Except.error e => Except.error e
  | Except.ok prices =>
    match prices.getLast? with
    | none => Except.error (AppError.quota ("No price data found for " ++ String.mk ticker))
    | some lp => Except.ok ⟨lp.price, lp.date, CURRENCY⟩

/-- Source.get_historical_price.  The empty branch is the Python guard,
unreachable for the same reason (its message, which would append the
requested date, is abbreviated here). -/
def get_historical_price (ticker : List Char) (fetch : FetchRequest → FetchOutcome)
    (time : AwareDateTime) : Except AppError SourcePrice :=
  let begin_time := addDays time (-10)
  let end_time := addDays time 10
  match get_price_series ticker begin_time end_time fetch with
  | Except.error e => Except.error e
  | Except.ok [] => Except.error (AppError.quota ("No price data found for " ++ String.mk ticker))
  | Except.ok (x :: xs) =>
    let cp := pyMinBy (fun p => time_distance p time) x xs
    Except.ok ⟨cp.price, cp.date, CURRENCY⟩

/-- Source.get_prices_series: no narrowing, no re-wrapping. -/
def get_prices_series (ticker : List Char) (time_begin time_end : AwareDateTime)
    (fetch : FetchRequest → FetchOutcome) : Except AppError (List SourcePrice) :=
  match get_price_series ticker time_begin time_end fetch with
  | Except.error e => Except.error e
  | Except.ok prices =>
    Except.ok (prices.map (fun p => (⟨p.price, p.date, CURRENCY⟩ : SourcePrice)))

end Source

/-! ### Concrete fixtures (from the reference tests) -/

/-- Three rows of the test fixture, in the provider's descending order. -/
def sampleKlines : List (List Char) :=
  [String.toList "2024-12-20,41.16",
   String.toList "2024-12-19,41.37",
   String.toList "2024-12-18,41.05"]

/-- A network oracle answering every request with the fixture. -/
def fetchSample : FetchRequest → FetchOutcome :=
  fun _ => FetchOutcome.jsonOk (some 0) none (KlineInput.present sampleKlines)

/-- Shorthand for a parsed point at midnight UTC+8. -/
def mkPt (y m d : Nat) (q : Rat) : PricePoint := ⟨mkTzMidnight y m d, q⟩

/-- The fixture parsed and sorted ascending. -/
def sortedSample : List PricePoint :=
  [mkPt 2024 12 18 (decimalVal (String.toList "41") (String.toList "05")),
   mkPt 2024 12 19 (decimalVal (String.toList "41") (String.toList "37")),
   mkPt 2024 12 20 (decimalVal (String.toList "41") (String.toList "16"))]

/-! ### Helper lemmas: splitting -/

theorem containsChar_append_dot (p c : List Char) :
    containsChar (p ++ '.' :: c) '.' = true := by
  induction p with
  | nil => simp [containsChar]
  | cons a p ih => simp [containsChar, ih]

theorem splitFirstDot_append (p c : List Char) (hp : containsChar p '.' = false) :
    splitFirstDot (p ++ '.' :: c) = (p, c) := by
  induction p with
  | nil => simp [splitFirstDot]
  | cons a p ih =>
    simp only [containsChar, Bool.or_eq_false_iff] at hp
    simp [splitFirstDot, hp.1, ih hp.2]

/-! ### Claim theorems C1 - C6 -/

/-- C1: the three public operations do NOT resolve prefixed tickers through
the section-4.1 rules: get_price_series calls get_market_code directly
(generate_secid, which implements the prefix path und would yield
"116.00700", is never called), so every operation on "HK.00700" fails with
the InvalidTicker error instead of fetching secid "116.00700". -/
theorem c1_public_ops_skip_prefix_resolution (fetch : FetchRequest → FetchOutcome)
    (tb te now t : AwareDateTime) :
    generate_secid (String.toList "HK.00700") = Except.ok "116.00700"
    ∧ get_price_series (String.toList "HK.00700") tb te fetch
        = Except.error (AppError.quota "Unsupported ticker format: HK.00700")
    ∧ Source.get_latest_price (String.toList "HK.00700") fetch now
        = Except.error (AppError.quota "Unsupported ticker format: HK.00700")
    ∧ Source.get_historical_price (String.toList "HK.00700") fetch t
        = Except.error (AppError.quota "Unsupported ticker format: HK.00700")
    ∧ Source.get_prices_series (String.toList "HK.00700") tb te fetch
        = Except.error (AppError.quota "Unsupported ticker format: HK.00700") :=
  ⟨rfl, rfl, rfl, rfl, rfl⟩

/-- C2: a 6-digit ticker with leading digit 4, 5, 7, 8 or 9 does NOT make
identifier resolution raise: get_market_code returns normally with None
(the Python body falls through), and get_price_series then issues the fetch
with the secid "None.400000" — the oracle below answers only that secid,
and the call succeeds. -/
theorem c2_unhandled_six_digit_returns_none :
    get_market_code (String.toList "400000") = Except.ok none
    ∧ get_market_code (String.toList "500000") = Except.ok none
    ∧ get_market_code (String.toList "700000") = Except.ok none
    ∧ get_market_code (String.toList "800000") = Except.ok none
    ∧ get_market_code (String.toList "900000") = Except.ok none
    ∧ get_price_series (String.toList "400000") ⟨0, 8⟩ ⟨864000, 8⟩
        (fun req => if req.secid = "None.400000"
          then FetchOutcome.jsonOk (some 0) none
            (KlineInput.present [String.toList "2024-12-20,41.16"])
          else FetchOutcome.networkError "unreached")
      = Except.ok [mkPt 2024 12 20 (decimalVal (String.toList "41") (String.toList "16"))] :=
  ⟨rfl, rfl, rfl, rfl, rfl, rfl⟩

/-- C3: errors raised inside get_price_series's try block do NOT reach the
caller unchanged: EastMoneyQuotaError subclasses ValueError, so the
blanket `except (json.JSONDecodeError, ValueError)` clause catches the
function's own API-status error and the parser's empty-klines error and
re-raises both with the "Invalid JSON response: " prefix. -/
theorem c3_try_block_rewraps_own_errors :
    get_price_series (String.toList "000651") ⟨0, 8⟩ ⟨864000, 8⟩
        (fun _ => FetchOutcome.jsonOk (some 1) (some "bad args") (KlineInput.present []))
      = Except.error (AppError.quota "Invalid JSON response: API error: bad args")
    ∧ get_price_series (String.toList "000651") ⟨0, 8⟩ ⟨864000, 8⟩
        (fun _ => FetchOutcome.jsonOk (some 0) none (KlineInput.present []))
      = Except.error (AppError.quota "Invalid JSON response: No price data found")
    ∧ Source.get_prices_series (String.toList "000651") ⟨0, 8⟩ ⟨864000, 8⟩
        (fun _ => FetchOutcome.jsonOk (some 0) none (KlineInput.present []))
      = Except.error (AppError.quota "Invalid JSON response: No price data found") :=
  ⟨rfl, rfl, rfl⟩

/-- C4: auto-detection maps every 6-digit numeric ticker with first digit
0-3 to exchange code "0", first digit 6 to "1", and every 5-digit numeric
ticker to "116". -/
theorem c4_auto_detect_market_codes :
    (∀ (c : Char) (rest : List Char), isdigit (c :: rest) = true →
      (c :: rest).length = 6 → (c = '0' ∨ c = '1' ∨ c = '2' ∨ c = '3') →
      get_market_code (c :: rest) = Except.ok (some "0"))
    ∧ (∀ (rest : List Char), isdigit ('6' :: rest) = true →
      ('6' :: rest).length = 6 → get_market_code ('6' :: rest) = Except.ok (some "1"))
    ∧ (∀ (t : List Char), isdigit t = true → t.length = 5 →
      get_market_code t = Except.ok (some "116")) := by
  refine ⟨?_, ?_, ?_⟩
  · intro c rest hd hl hc
    rcases hc with rfl | rfl | rfl | rfl <;>
      simp [get_market_code, hd, hl, startswith, marketLookup, market_mapping]
  · intro rest hd hl
    simp [get_market_code, hd, hl, startswith, marketLookup, market_mapping]
    decide
  · intro t hd hl
    simp [get_market_code, hd, hl, marketLookup, market_mapping]
    decide

/-- C4 witness: the three branches evaluated on the test tickers. -/
theorem c4_auto_detect_market_codes_witness :
    get_market_code (String.toList "000651") = Except.ok (some "0")
    ∧ get_market_code (String.toList "600519") = Except.ok (some "1")
    ∧ get_market_code (String.toList "00700") = Except.ok (some "116") :=
  ⟨c4_auto_detect_market_codes.1 '0' (String.toList "00651")
      (by decide) (by decide) (Or.inl rfl),
   c4_auto_detect_market_codes.2.1 (String.toList "00519") (by decide) (by decide),
   c4_auto_detect_market_codes.2.2 (String.toList "00700") (by decide) (by decide)⟩

/-- C5: generate_secid on a ticker containing the separator splits at the
first '.', upper-cases the prefix, and returns "mappedCode.code" with the
code part untouched when the prefix is in the table, case-insensitively;
an unknown prefix fails with the InvalidTicker error. -/
theorem c5_prefix_path :
    (∀ (p c : List Char), containsChar p '.' = false →
      ∀ mc, marketLookup (String.mk (p.map Char.toUpper)) = some mc →
        generate_secid (p ++ '.' :: c) = Except.ok (mc ++ "." ++ String.mk c))
    ∧ (∀ (p c : List Char), containsChar p '.' = false →
      marketLookup (String.mk (p.map Char.toUpper)) = none →
        generate_secid (p ++ '.' :: c)
          = Except.error ("Unsupported market prefix: " ++ String.mk (p.map Char.toUpper)))
    ∧ generate_secid (String.toList "HK.00700") = Except.ok "116.00700"
    ∧ generate_secid (String.toList "hk.00700") = Except.ok "116.00700"
    ∧ generate_secid (String.toList "US.AAPL")
        = Except.error "Unsupported market prefix: US" := by
  refine ⟨?_, ?_, rfl, rfl, rfl⟩
  · intro p c hp mc hmc
    simp [generate_secid, containsChar_append_dot, splitFirstDot_append p c hp, hmc]
  · intro p c hp hmc
    simp [generate_secid, containsChar_append_dot, splitFirstDot_append p c hp, hmc]

/-- C5 witness: the table-hit branch applied to "SZ" ++ "." ++ "000651". -/
theorem c5_prefix_path_witness :
    generate_secid (String.toList "SZ" ++ '.' :: String.toList "000651")
      = Except.ok ("0" ++ "." ++ String.mk (String.toList "000651")) :=
  c5_prefix_path.1 (String.toList "SZ") (String.toList "000651") (by decide) "0" (by decide)

/-- C6: a row whose price part fails to parse is NOT silently skipped:
decimal.InvalidOperation is not a ValueError, escapes the per-row
`except (ValueError, IndexError)` clause, aborts the whole parse, and even
escapes get_price_series's except clauses — although another row parses
fine. -/
theorem c6_price_parse_failure_not_skipped :
    parse_kline_row (String.toList "2024-12-20,abc") = RowResult.invalidOperation
    ∧ parse_kline_data (KlineInput.present
        [String.toList "2024-12-20,abc", String.toList "2024-12-19,41.37"])
      = Except.error PyExc.invalidOperation
    ∧ get_price_series (String.toList "000651") ⟨0, 8⟩ ⟨864000, 8⟩
        (fun _ => FetchOutcome.jsonOk (some 0) none (KlineInput.present
          [String.toList "2024-12-20,abc", String.toList "2024-12-19,41.37"]))
      = Except.error AppError.invalidOperation :=
  ⟨rfl, rfl, rfl⟩

/-! ### Helper lemmas: parse invariants -/

theorem collectRows_ok_mem : ∀ (ks : List (List Char)) (res : List PricePoint),
    collectRows ks = Except.ok res → ∀ p ∈ res, ∃ k, parse_kline_row k = RowResult.ok p := by
  intro ks
  induction ks with
  | nil =>
    intro res h
    simp only [collectRows] at h
    injection h with h
    subst h
    simp
  | cons k rest ih =>
    intro res h
    rw [collectRows] at h
    split at h
    · cases h
    · exact ih res h
    next p0 hr =>
      cases hc : collectRows rest with
      | error e => rw [hc] at h; simp only [Except.map] at h; cases h
      | ok l =>
        rw [hc] at h
        simp only [Except.map] at h
        injection h with h
        subst h
        intro p hp
        rcases List.mem_cons.mp hp with rfl | hp2
        · exact ⟨k, hr⟩
        · exact ih l hc p hp2

theorem parse_kline_row_ok_offset : ∀ (k : List Char) (p : PricePoint),
    parse_kline_row k = RowResult.ok p → p.date.offsetHours = 8 := by
  intro k p h
  unfold parse_kline_row at h
  split at h
  · split at h
    · cases h
    · split at h
      · cases h
      · injection h with h
        subst h
        rfl
  · cases h

theorem parse_kline_data_ok_inv (input : KlineInput) (ps : List PricePoint)
    (h : parse_kline_data input = Except.ok ps) :
    ps ≠ [] ∧ List.Sorted dateLe ps ∧ ∀ p ∈ ps, p.date.offsetHours = 8 := by
  unfold parse_kline_data at h
  split at h
  · cases h
  next klines =>
    split at h
    · cases h
    · split at h
      · cases h
      next result hc =>
        split at h
        · cases h
        next hne =>
          injection h with h
          subst h
          refine ⟨?_, List.sorted_insertionSort dateLe result, ?_⟩
          · intro hnil
            have hp := List.perm_insertionSort dateLe result
            rw [hnil] at hp
            have hr : result = [] := hp.symm.eq_nil
            simp [hr] at hne
          · intro p hp
            rw [List.mem_insertionSort] at hp
            obtain ⟨k, hk⟩ := collectRows_ok_mem klines result hc p hp
            exact parse_kline_row_ok_offset k p hk

theorem tryBody_ok_parse (ticker : List Char) (tb te : AwareDateTime)
    (fetch : FetchRequest → FetchOutcome) (mc : Option String) (v : List PricePoint)
    (h : tryBody ticker tb te fetch mc = Except.ok v) :
    ∃ kl, parse_kline_data kl = Except.ok v := by
  simp only [tryBody] at h
  split at h
  · cases h
  · cases h
  next rc rt kl hfetch =>
    split at h
    · cases h
    · split at h
      · cases h
      next prices hp =>
        split at h
        · cases h
        · injection h with h
          subst h
          exact ⟨kl, hp⟩

theorem get_price_series_ok_inv (ticker : List Char) (tb te : AwareDateTime)
    (fetch : FetchRequest → FetchOutcome) (ps : List PricePoint)
    (h : get_price_series ticker tb te fetch = Except.ok ps) :
    ps ≠ [] ∧ List.Sorted dateLe ps ∧ ∀ p ∈ ps, p.date.offsetHours = 8 := by
  unfold get_price_series at h
  split at h
  · cases h
  next mc hmc =>
    split at h
    next v hv =>
      injection h with h
      subst h
      obtain ⟨kl, hp⟩ := tryBody_ok_parse ticker tb te fetch mc v hv
      exact parse_kline_data_ok_inv kl v hp
    · cases h

/-! ### Helper lemmas: last element of a sorted list, stable minimum -/

theorem sorted_getLast_max : ∀ (l : List PricePoint) (x : PricePoint),
    List.Sorted dateLe l → l.getLast? = some x → ∀ a ∈ l, dateLe a x
  | [], x, _, hl => by cases hl
  | [b], x, _, hl => by
      simp only [List.getLast?_singleton] at hl
      injection hl with hl
      subst hl
      intro a ha
      rcases List.mem_singleton.mp ha with rfl
      exact le_refl _
  | b :: c :: t, x, hs, hl => by
      rw [List.getLast?_cons_cons] at hl
      have hs2 := List.sorted_cons.mp hs
      intro a ha
      rcases List.mem_cons.mp ha with rfl | ha2
      · have hx : x ∈ c :: t := by
          obtain ⟨hne, hxe⟩ := List.mem_getLast?_eq_getLast (Option.mem_def.mpr hl)
          rw [hxe]
          exact List.getLast_mem hne
        exact hs2.1 x hx
      · exact sorted_getLast_max (c :: t) x hs2.2 hl a ha2

theorem pyMinBy_spec {α : Type} (f : α → Nat) :
    ∀ (xs : List α) (x : α), ∃ l1 l2, x :: xs = l1 ++ pyMinBy f x xs :: l2
      ∧ (∀ a ∈ l1, f (pyMinBy f x xs) < f a) ∧ (∀ a ∈ l2, f (pyMinBy f x xs) ≤ f a) := by
  intro xs
  induction xs with
  | nil =>
    intro x
    exact ⟨[], [], rfl, by simp, by simp⟩
  | cons y ys ih =>
    intro x
    have hstep : pyMinBy f x (y :: ys) = pyMinBy f (if f y < f x then y else x) ys := rfl
    by_cases hy : f y < f x
    · rw [hstep, if_pos hy]
      obtain ⟨l1, l2, heq, h1, h2⟩ := ih y
      have hyr : f (pyMinBy f y ys) ≤ f y := by
        rcases l1 with _ | ⟨a, l1'⟩
        · rw [List.nil_append] at heq
          injection heq with heq1 heq2
          rw [← heq1]
        · injection heq with heq1 heq2
          subst heq1
          exact le_of_lt (h1 y (List.mem_cons_self y l1'))
      refine ⟨x :: l1, l2, ?_, ?_, h2⟩
      · rw [List.cons_append, ← heq]
      · intro a ha
        rcases List.mem_cons.mp ha with rfl | ha2
        · exact lt_of_le_of_lt hyr hy
        · exact h1 a ha2
    · rw [hstep, if_neg hy]
      obtain ⟨l1, l2, heq, h1, h2⟩ := ih x
      rcases l1 with _ | ⟨a, l1'⟩
      · rw [List.nil_append] at heq
        injection heq with heq1 heq2
        refine ⟨[], y :: ys, ?_, by simp, ?_⟩
        · rw [List.nil_append, ← heq1]
        · intro a ha
          rcases List.mem_cons.mp ha with rfl | ha2
          · rw [← heq1]
            exact Nat.le_of_not_lt hy
          · rw [heq2] at ha2
            exact h2 a ha2
      · injection heq with heq1 heq2
        subst heq1
        refine ⟨x :: y :: l1', l2, ?_, ?_, h2⟩
        · conv_lhs => rw [heq2]
          rfl
        · intro a ha
          rcases List.mem_cons.mp ha with rfl | ha2
          · exact h1 a (List.mem_cons_self a l1')
          · rcases List.mem_cons.mp ha2 with rfl | ha3
            · exact lt_of_lt_of_le (h1 x (List.mem_cons_self x l1')) (Nat.le_of_not_lt hy)
            · exact h1 a (List.mem_cons_of_mem x ha3)

theorem tryBody_fetch_congr (ticker : List Char) (tb te : AwareDateTime)
    (f g : FetchRequest → FetchOutcome) (mc : Option String)
    (h : ∀ req, req.beg = tb → req.endt = te → f req = g req) :
    tryBody ticker tb te f mc = tryBody ticker tb te g mc := by
  simp only [tryBody]
  rw [h _ rfl rfl]

theorem get_price_series_fetch_congr (ticker : List Char) (tb te : AwareDateTime)
    (f g : FetchRequest → FetchOutcome)
    (h : ∀ req, req.beg = tb → req.endt = te → f req = g req) :
    get_price_series ticker tb te f = get_price_series ticker tb te g := by
  unfold get_price_series
  cases get_market_code ticker with
  | error e => rfl
  | ok mc =>
    exact congrArg
      (fun r => match r with
        | Except.ok v => Except.ok v
        | Except.error e => Except.error (runExceptClauses e))
      (tryBody_fetch_congr ticker tb te f g mc h)

/-! ### Claim theorems C7 - C9 -/

/-- C7: every series returned by a successful parse is non-empty, and every
pair of adjacent points is in ascending date order. -/
theorem c7_parse_sorted_nonempty (input : KlineInput) (ps : List PricePoint)
    (h : parse_kline_data input = Except.ok ps) :
    ps ≠ [] ∧ List.Chain' dateLe ps := by
  obtain ⟨h1, h2, _⟩ := parse_kline_data_ok_inv input ps h
  exact ⟨h1, h2.chain'⟩

/-- C7 witness: the three-row fixture parses to a non-empty ascending series. -/
theorem c7_parse_sorted_nonempty_witness :
    parse_kline_data (KlineInput.present sampleKlines) = Except.ok sortedSample
    ∧ sortedSample ≠ [] ∧ List.Chain' dateLe sortedSample :=
  ⟨rfl, c7_parse_sorted_nonempty (KlineInput.present sampleKlines) sortedSample rfl⟩

/-- C8: get_historical_price depends on the network only through the window
[t - 10 days, t + 10 days] that it fetches; nearest-point comparison uses
instants (offsets normalize away); and on success it returns the point
minimizing the absolute time distance to the target, earliest first on
ties (stable minimum). -/
theorem c8_historical_window_and_nearest :
    (∀ (ticker : List Char) (t : AwareDateTime) (f g : FetchRequest → FetchOutcome),
      (∀ req, req.beg = addDays t (-10) → req.endt = addDays t 10 → f req = g req) →
      Source.get_historical_price ticker f t = Source.get_historical_price ticker g t)
    ∧ (∀ (p : PricePoint) (sec o1 o2 : Int),
      time_distance p ⟨sec, o1⟩ = time_distance p ⟨sec, o2⟩)
    ∧ (∀ (ticker : List Char) (t : AwareDateTime) (f : FetchRequest → FetchOutcome)
        (prices : List PricePoint),
      get_price_series ticker (addDays t (-10)) (addDays t 10) f = Except.ok prices →
      ∃ r l1 l2,
        Source.get_historical_price ticker f t = Except.ok ⟨r.price, r.date, CURRENCY⟩
        ∧ prices = l1 ++ r :: l2
        ∧ (∀ a ∈ l1, time_distance r t < time_distance a t)
        ∧ (∀ a ∈ l2, time_distance r t ≤ time_distance a t)) := by
  refine ⟨?_, fun p sec o1 o2 => rfl, ?_⟩
  · intro ticker t f g h
    simp only [Source.get_historical_price]
    rw [get_price_series_fetch_congr ticker (addDays t (-10)) (addDays t 10) f g h]
  · intro ticker t f prices h
    obtain ⟨hne, _, _⟩ := get_price_series_ok_inv ticker _ _ f prices h
    rcases prices with _ | ⟨x, xs⟩
    · exact absurd rfl hne
    · obtain ⟨l1, l2, heq, h1, h2⟩ := pyMinBy_spec (fun p => time_distance p t) xs x
      refine ⟨pyMinBy (fun p => time_distance p t) x xs, l1, l2, ?_, heq, h1, h2⟩
      simp only [Source.get_historical_price]
      rw [h]

/-- C8 witness: target 2024-12-19 00:00 UTC on the fixture; the nearest
point is 2024-12-19 (distance 8 hours). -/
theorem c8_historical_window_and_nearest_witness :
    ∃ r l1 l2,
      Source.get_historical_price (String.toList "000651") fetchSample ⟨1734566400, 0⟩
        = Except.ok ⟨r.price, r.date, CURRENCY⟩
      ∧ sortedSample = l1 ++ r :: l2
      ∧ (∀ a ∈ l1, time_distance r ⟨1734566400, 0⟩ < time_distance a ⟨1734566400, 0⟩)
      ∧ (∀ a ∈ l2, time_distance r ⟨1734566400, 0⟩ ≤ time_distance a ⟨1734566400, 0⟩) :=
  c8_historical_window_and_nearest.2.2 (String.toList "000651") ⟨1734566400, 0⟩
    fetchSample sortedSample rfl

/-- C9: on a successful fetch-and-parse, get_latest_price returns the last
point of the sorted series — the maximum-date point — with currency "CNY"
and the UTC+8 offset on its date. -/
theorem c9_latest_is_max (ticker : List Char) (fetch : FetchRequest → FetchOutcome)
    (now : AwareDateTime) (prices : List PricePoint)
    (h : get_price_series ticker (addDays now (-10)) now fetch = Except.ok prices) :
    ∃ lp, prices.getLast? = some lp
      ∧ Source.get_latest_price ticker fetch now = Except.ok ⟨lp.price, lp.date, CURRENCY⟩
      ∧ (∀ a ∈ prices, dateLe a lp)
      ∧ lp.date.offsetHours = 8 := by
  obtain ⟨hne, hsort, hoff⟩ := get_price_series_ok_inv ticker _ _ fetch prices h
  have hl : prices.getLast? = some (prices.getLast hne) :=
    List.getLast?_eq_getLast_of_ne_nil hne
  refine ⟨prices.getLast hne, hl, ?_, ?_, ?_⟩
  · have hsrc : Source.get_latest_price ticker fetch now
        = match prices.getLast? with
          | none => Except.error (AppError.quota ("No price data found for " ++ String.mk ticker))
          | some lp => Except.ok ⟨lp.price, lp.date, CURRENCY⟩ := by
      simp only [Source.get_latest_price]
      rw [h]
    rw [hsrc, hl]
  · exact sorted_getLast_max prices _ hsort hl
  · exact hoff _ (List.getLast_mem hne)

/-- C9 witness: the fixture's latest point, 2024-12-20 at 41.16 CNY. -/
theorem c9_latest_is_max_witness :
    ∃ lp, sortedSample.getLast? = some lp
      ∧ Source.get_latest_price (String.toList "000651") fetchSample ⟨1734652800, 8⟩
        = Except.ok ⟨lp.price, lp.date, CURRENCY⟩
      ∧ (∀ a ∈ sortedSample, dateLe a lp)
      ∧ lp.date.offsetHours = 8 :=
  c9_latest_is_max (String.toList "000651") fetchSample ⟨1734652800, 8⟩ sortedSample rfl

/-! ### C10: canonical rendering of rows and the round-trip -/

/-- Digit character of a value 0-9. -/
def digitChar : Nat → Char
  | 0 => '0'
  | 1 => '1'
  | 2 => '2'
  | 3 => '3'
  | 4 => '4'
  | 5 => '5'
  | 6 => '6'
  | 7 => '7'
  | 8 => '8'
  | 9 => '9'
  | _ => '*'

/-- Zero-padded two-digit rendering, as in "MM" or "DD". -/
def render2 (n : Nat) : List Char := [digitChar (n / 10), digitChar (n % 10)]

/-- Zero-padded four-digit rendering, as in "YYYY". -/
def render4 (n : Nat) : List Char :=
  [digitChar (n / 1000), digitChar (n / 100 % 10), digitChar (n / 10 % 10), digitChar (n % 10)]

theorem digitChar_isDigit {k : Nat} (h : k ≤ 9) : (digitChar k).isDigit = true := by
  interval_cases k <;> decide

theorem dval_digitChar {k : Nat} (h : k ≤ 9) : dval (digitChar k) = k := by
  interval_cases k <;> decide

theorem digitChar_ne_comma {k : Nat} (h : k ≤ 9) : digitChar k ≠ ',' := by
  interval_cases k <;> decide

theorem isDigit_ne_comma {c : Char} (h : c.isDigit = true) : c ≠ ',' := by
  rintro rfl
  exact absurd h (by decide)

theorem splitOnComma_no_comma (s : List Char) (h : ∀ c ∈ s, c ≠ ',') :
    splitOnComma s = [s] := by
  induction s with
  | nil => rfl
  | cons a t ih =>
    have ha : a ≠ ',' := h a (List.mem_cons_self a t)
    have ht := ih (fun c hc => h c (List.mem_cons_of_mem a hc))
    simp [splitOnComma, ha, ht]

theorem splitOnComma_append (a b : List Char) (ha : ∀ c ∈ a, c ≠ ',') :
    splitOnComma (a ++ ',' :: b) = a :: splitOnComma b := by
  induction a with
  | nil => simp [splitOnComma]
  | cons x t ih =>
    have hx : x ≠ ',' := ha x (List.mem_cons_self x t)
    have ht := ih (fun c hc => ha c (List.mem_cons_of_mem x hc))
    simp [splitOnComma, hx, ht]

theorem takeWhile_all_append (p : Char → Bool) : ∀ (a : List Char) (c : Char) (b : List Char),
    (∀ x ∈ a, p x = true) → p c = false →
    (a ++ c :: b).takeWhile p = a ∧ (a ++ c :: b).dropWhile p = c :: b := by
  intro a
  induction a with
  | nil =>
    intro c b _ hc
    simp [List.takeWhile, List.dropWhile, hc]
  | cons x t ih =>
    intro c b ha hc
    have hx : p x = true := ha x (List.mem_cons_self x t)
    have ht := ih c b (fun y hy => ha y (List.mem_cons_of_mem x hy)) hc
    simp [List.takeWhile, List.dropWhile, hx, ht.1, ht.2]

theorem daysInMonth_le_31 (y m : Nat) : daysInMonth y m ≤ 31 := by
  unfold daysInMonth
  split
  · split <;> omega
  · split <;> omega

theorem parseMonth_render {m : Nat} (h1 : 1 ≤ m) (h2 : m ≤ 12) (rest : List Char) :
    parseMonth (render2 m ++ rest) = some (m, rest) := by
  interval_cases m <;> simp [render2, parseMonth, parseMonth2, digitChar, dval]

theorem parseDay_render {d : Nat} (h1 : 1 ≤ d) (h2 : d ≤ 31) :
    parseDay (render2 d) = some (d, []) := by
  interval_cases d <;> decide

theorem strptimeYmd_render {y m d : Nat} (hy1 : 1 ≤ y) (hy2 : y ≤ 9999)
    (hm1 : 1 ≤ m) (hm2 : m ≤ 12) (hd1 : 1 ≤ d) (hd2 : d ≤ daysInMonth y m) :
    strptimeYmd (render4 y ++ '-' :: render2 m ++ '-' :: render2 d) = some (y, m, d) := by
  have hd31 : d ≤ 31 := le_trans hd2 (daysInMonth_le_31 y m)
  have h1 : (digitChar (y / 1000)).isDigit = true := digitChar_isDigit (by omega)
  have h2 : (digitChar (y / 100 % 10)).isDigit = true := digitChar_isDigit (by omega)
  have h3 : (digitChar (y / 10 % 10)).isDigit = true := digitChar_isDigit (by omega)
  have h4 : (digitChar (y % 10)).isDigit = true := digitChar_isDigit (by omega)
  have hyval : 1000 * dval (digitChar (y / 1000)) + 100 * dval (digitChar (y / 100 % 10))
      + 10 * dval (digitChar (y / 10 % 10)) + dval (digitChar (y % 10)) = y := by
    rw [dval_digitChar (by omega), dval_digitChar (by omega),
        dval_digitChar (by omega), dval_digitChar (by omega)]
    omega
  simp only [render4, List.cons_append, List.nil_append]
  simp only [strptimeYmd, h1, h2, h3, h4, true_and, and_true]
  simp only [parseMonth_render hm1 hm2, parseDay_render hd1 hd31, hyval]
  simp [hy1, hd2]

theorem parseUnsignedDecimal_render (ip fp : List Char)
    (hip : ∀ c ∈ ip, c.isDigit = true) (hfp : ∀ c ∈ fp, c.isDigit = true)
    (hne : ip ≠ []) :
    parseUnsignedDecimal (ip ++ '.' :: fp) = some (decimalVal ip fp) := by
  obtain ⟨htake, hdrop⟩ := takeWhile_all_append Char.isDigit ip '.' fp hip (by decide)
  simp only [parseUnsignedDecimal, htake, hdrop]
  rw [if_pos]
  refine ⟨trivial, List.all_eq_true.mpr hfp, ?_⟩
  intro hcontra
  exact hne (List.isEmpty_iff.mp hcontra.1)

theorem parse_decimal_render (ip fp : List Char)
    (hip : ∀ c ∈ ip, c.isDigit = true) (hfp : ∀ c ∈ fp, c.isDigit = true)
    (hne : ip ≠ []) :
    parse_decimal (ip ++ '.' :: fp) = some (decimalVal ip fp) := by
  rcases ip with _ | ⟨c, t⟩
  · exact absurd rfl hne
  · have hc : c.isDigit = true := hip c (List.mem_cons_self c t)
    have hc1 : c ≠ '-' := by
      rintro rfl
      exact absurd hc (by decide)
    have hc2 : c ≠ '+' := by
      rintro rfl
      exact absurd hc (by decide)
    simp only [parse_decimal, List.cons_append]
    rw [if_neg hc1, if_neg hc2]
    exact parseUnsignedDecimal_render (c :: t) fp hip hfp (by simp)

theorem dateRender_no_comma {y m d : Nat} (hy : y ≤ 9999) (hm : m ≤ 99) (hd : d ≤ 99) :
    ∀ c ∈ render4 y ++ '-' :: render2 m ++ '-' :: render2 d, c ≠ ',' := by
  intro c hc
  simp only [render4, render2, List.cons_append, List.nil_append, List.mem_cons,
    List.not_mem_nil, or_false] at hc
  rcases hc with rfl | rfl | rfl | rfl | rfl | rfl | rfl | rfl | rfl | rfl <;>
    first
      | exact digitChar_ne_comma (by omega)
      | decide

theorem numeral_no_comma (ip fp : List Char)
    (hip : ∀ c ∈ ip, c.isDigit = true) (hfp : ∀ c ∈ fp, c.isDigit = true) :
    ∀ c ∈ ip ++ '.' :: fp, c ≠ ',' := by
  intro c hc
  rcases List.mem_append.mp hc with h | h
  · exact isDigit_ne_comma (hip c h)
  · rcases List.mem_cons.mp h with rfl | h
    · decide
    · exact isDigit_ne_comma (hfp c h)

/-- C10: every canonical row "YYYY-MM-DD,ip.fp" with a valid date and a
decimal numeral price parses to the PricePoint whose instant is midnight of
exactly that calendar date in the fixed UTC+8 offset, and whose price is
the exact rational value of the numeral — no rounding anywhere. -/
theorem c10_row_roundtrip (y m d : Nat) (ip fp : List Char)
    (hy1 : 1 ≤ y) (hy2 : y ≤ 9999) (hm1 : 1 ≤ m) (hm2 : m ≤ 12)
    (hd1 : 1 ≤ d) (hd2 : d ≤ daysInMonth y m)
    (hip : ∀ c ∈ ip, c.isDigit = true) (hfp : ∀ c ∈ fp, c.isDigit = true)
    (hne : ip ≠ []) :
    parse_kline_row ((render4 y ++ '-' :: render2 m ++ '-' :: render2 d)
        ++ ',' :: (ip ++ '.' :: fp))
      = RowResult.ok ⟨⟨daysFromCivil y m d * 86400 - 8 * 3600, 8⟩, decimalVal ip fp⟩ := by
  have hsplit : splitOnComma ((render4 y ++ '-' :: render2 m ++ '-' :: render2 d)
      ++ ',' :: (ip ++ '.' :: fp))
      = [render4 y ++ '-' :: render2 m ++ '-' :: render2 d, ip ++ '.' :: fp] := by
    rw [splitOnComma_append _ _ (dateRender_no_comma hy2 (by omega)
          (le_trans hd2 (le_trans (daysInMonth_le_31 y m) (by omega)))),
        splitOnComma_no_comma _ (numeral_no_comma ip fp hip hfp)]
  simp only [parse_kline_row, hsplit]
  rw [strptimeYmd_render hy1 hy2 hm1 hm2 hd1 hd2]
  rw [parse_decimal_render ip fp hip hfp hne]
  rfl

/-- C10 witness: the fixture row "2024-12-20,41.16". -/
theorem c10_row_roundtrip_witness :
    parse_kline_row ((render4 2024 ++ '-' :: render2 12 ++ '-' :: render2 20)
        ++ ',' :: (String.toList "41" ++ '.' :: String.toList "16"))
      = RowResult.ok ⟨⟨daysFromCivil 2024 12 20 * 86400 - 8 * 3600, 8⟩,
          decimalVal (String.toList "41") (String.toList "16")⟩ :=
  c10_row_roundtrip 2024 12 20 (String.toList "41") (String.toList "16")
    (by decide) (by decide) (by decide) (by decide) (by decide) (by decide)
    (by decide) (by decide) (by decide)
